import Mathlib

/-!
Verification of the coroutine task runtime in
`include/coro/MPP_MCpp/example_4d.h` (namespace `rtc::coro::mpp_mcpp::v4d`):
a worker-thread-pool `executor`, a `continuation_manager`, and the
future-backed `ctask` coroutine with its promise, scheduler and awaiter.

The embedding is a shallow one: each C++ member function becomes a pure
Lean function over an explicit state, and the side effects that matter to
the specification (submitting a work item to an executor, resuming a
coroutine handle inline) are reified as an `Act` log.  Thread
interleavings are modelled by composing the lock-delimited atomic steps of
the C++ code in arbitrary order, and the executor is a small-step machine
whose actions mirror the lock-protected sections of `executor::run_thread`
and `executor::schedule`.
-/

namespace V4d

/-- Work items held by an executor queue: either a `continuation_manager::resumer`
wrapping a coroutine handle, or a task's own `ctask::state` frame (identified by
an id), as enqueued by `ctask_scheduler`. -/
inductive WorkItem
  | resumer (handle : Nat)
  | stateExec (taskId : Nat)
  deriving DecidableEq, Repr

/-- Observable runtime actions: `sched e w` models `executor_(e)->schedule(w)`;
`resume h` models an inline `h.resume()` on the acting thread. -/
inductive Act
  | sched (execId : Nat) (item : WorkItem)
  | resume (handle : Nat)
  deriving DecidableEq, Repr

/-- Whether an action is a submission to an executor (as opposed to an inline
resume on the current thread). -/
def Act.isSched : Act → Bool
  | .sched _ _ => true
  | .resume _ => false

/-- The id of the single `executor_provider` singleton executor
(`ctask_executor_provider::get_executor()`). -/
def globalExecId : Nat := 0

/-- Embeds `struct continuation`: a coroutine handle paired with the executor
it must be resumed on (`handle_`, `executor_`). -/
structure continuation where
  handle : Nat
  execId : Nat
  deriving DecidableEq, Repr

/-- Embeds `class continuation_manager`: the mutex-guarded
`std::vector<continuation> continuations_`. -/
structure continuation_manager where
  continuations : List continuation
  deriving DecidableEq, Repr

/-- Embeds `continuation_manager::register_continuation`: appends the
continuation to the vector (under `mutex_`). -/
def continuation_manager.register_continuation
    (m : continuation_manager) (c : continuation) : continuation_manager :=
  ⟨m.continuations ++ [c]⟩

/-- Embeds `continuation_manager::resume_continuation`: schedules a fresh
`resumer` for the handle on the continuation's own executor. -/
def resume_continuation (c : continuation) : Act :=
  .sched c.execId (.resumer c.handle)

/-- Embeds `continuation_manager::resume_all_continuations`: under `mutex_`,
schedules one resumer per stored continuation; the vector itself is not
modified (the loop only reads it, there is no clear or erase). -/
def continuation_manager.resume_all_continuations
    (m : continuation_manager) : continuation_manager × List Act :=
  (m, m.continuations.map resume_continuation)

/-- Embeds `continuation_manager::resumer::execute`: it just resumes the
stored handle, inline on the worker thread that runs the work item. -/
def resumer.execute (handle : Nat) : Act :=
  .resume handle

/-- The result slot of `ctask<result_t>::state`: the pair
`std::promise<result_t> result_` / `std::shared_future<result_t> shared_future_`,
which is empty until satisfied with a value or an exception. -/
inductive Slot (V E : Type)
  | empty
  | value (v : V)
  | error (e : E)
  deriving DecidableEq, Repr

/-- The error thrown by `std::promise::set_value` / `set_exception` when the
promise is already satisfied. -/
inductive FutureError
  | promiseAlreadySatisfied
  deriving DecidableEq, Repr

/-- Embeds `ctask<result_t>::state`: coroutine handle (`none` models the
cleared `nullptr` handle), debug name, result slot, continuation manager. -/
structure state (V E : Type) where
  handle : Option Nat
  name : String
  slot : Slot V E
  mgr : continuation_manager
  deriving DecidableEq, Repr

/-- Embeds `ctask::ready` / `shared_future_.wait_for(0) == ready`: the slot is
satisfied (by a value or an exception). -/
def state.ready {V E : Type} (s : state V E) : Bool :=
  match s.slot with
  | .empty => false
  | _ => true

/-- Embeds `shared_future_.get()` as observed through `ctask::get_result`:
`none` models a call that blocks (promise not yet satisfied); once satisfied
it returns the stored value or re-raises the stored exception. -/
def state.get_result {V E : Type} (s : state V E) : Option (Except E V) :=
  match s.slot with
  | .empty => none
  | .value v => some (.ok v)
  | .error e => some (.error e)

/-- Embeds `state::set_result` (`result_.set_value`): writes the slot if still
empty, otherwise throws `std::future_error` leaving the state untouched. -/
def state.set_result {V E : Type} (s : state V E) (v : V) :
    Except FutureError (state V E) :=
  match s.slot with
  | .empty => .ok { s with slot := .value v }
  | _ => .error .promiseAlreadySatisfied

/-- Embeds `state::set_exception` (`result_.set_exception`): stores the
captured exception if the slot is still empty, otherwise throws. -/
def state.set_exception {V E : Type} (s : state V E) (e : E) :
    Except FutureError (state V E) :=
  match s.slot with
  | .empty => .ok { s with slot := .error e }
  | _ => .error .promiseAlreadySatisfied

/-- Embeds `state::set_handle`. -/
def state.set_handle {V E : Type} (s : state V E) (h : Option Nat) : state V E :=
  { s with handle := h }

/-- Embeds `state::set_name`. -/
def state.set_name {V E : Type} (s : state V E) (n : String) : state V E :=
  { s with name := n }

/-- First lock-delimited step of `ctask::register_continuation`: register
`{handle, &ctask_executor_provider::get_executor()}` with the continuation
manager (the append happens under the manager's mutex). -/
def registerAppendStep {V E : Type} (s : state V E) (h : Nat) : state V E :=
  { s with mgr := s.mgr.register_continuation ⟨h, globalExecId⟩ }

/-- Second step of `ctask::register_continuation`: `if (ready())` re-check
followed by `resume_all_continuations()`; returns the scheduled actions. -/
def registerCheckStep {V E : Type} (s : state V E) : List Act :=
  if s.ready then (s.mgr.resume_all_continuations).2 else []

/-- Embeds `ctask::register_continuation` run without interference between its
two steps: append the continuation, then re-check readiness and, if ready,
resume (schedule) all registered continuations. -/
def ctask.register_continuation {V E : Type} (s : state V E) (h : Nat) :
    state V E × List Act :=
  let s1 := registerAppendStep s h
  (s1, registerCheckStep s1)

/-- Embeds `coroutine_promise::return_value`: if the weak pointer to the
shared state can be locked (`some`), write the result and schedule all
registered continuations; otherwise do nothing. -/
def coroutine_promise.return_value {V E : Type} (st : Option (state V E)) (v : V) :
    Except FutureError (Option (state V E) × List Act) :=
  match st with
  | none => .ok (none, [])
  | some s =>
      match s.set_result v with
      | .ok s1 => .ok (some s1, (s1.mgr.resume_all_continuations).2)
      | .error err => .error err

/-- Embeds `coroutine_promise::unhandled_exception`: if the weak pointer can
be locked, capture `std::current_exception()` into the result slot; note that
it does not resume any continuation. -/
def coroutine_promise.unhandled_exception {V E : Type} (st : Option (state V E)) (e : E) :
    Except FutureError (Option (state V E) × List Act) :=
  match st with
  | none => .ok (none, [])
  | some s =>
      match s.set_exception e with
      | .ok s1 => .ok (some s1, [])
      | .error err => .error err

/-- Embeds `coroutine_promise::final_suspend`: if the weak pointer can be
locked, clear the stored coroutine handle (`set_handle(nullptr)`). -/
def coroutine_promise.final_suspend {V E : Type} (st : Option (state V E)) :
    Option (state V E) :=
  match st with
  | none => none
  | some s => some (s.set_handle none)

/-- The outcome of running a task body to its end: `co_return v`, or an
exception escaping the body. -/
inductive Outcome (V E : Type)
  | ok (v : V)
  | exn (e : E)
  deriving DecidableEq, Repr

/-- Embeds `state::execute` (which is `noexcept` and resumes `handle_` with no
handler): running the frame drives the body to its outcome, after which the
compiler-generated code calls `return_value` or `unhandled_exception` and then
`final_suspend` on the promise. -/
def state.execute {V E : Type} (st : Option (state V E)) (out : Outcome V E) :
    Except FutureError (Option (state V E) × List Act) :=
  match out with
  | .ok v =>
      match coroutine_promise.return_value st v with
      | .ok r => .ok (coroutine_promise.final_suspend r.1, r.2)
      | .error err => .error err
  | .exn e =>
      match coroutine_promise.unhandled_exception st e with
      | .ok r => .ok (coroutine_promise.final_suspend r.1, r.2)
      | .error err => .error err

/-- Embeds `ctask_awaiter::await_ready`: `task_.ready()`. -/
def ctask_awaiter.await_ready {V E : Type} (s : state V E) : Bool :=
  s.ready

/-- Embeds `ctask_awaiter::await_suspend`: if the awaited task is ready,
return `false` (the awaiting coroutine resumes inline, no actions emitted);
otherwise register the awaiting handle as a continuation and return `true`. -/
def ctask_awaiter.await_suspend {V E : Type} (s : state V E) (h : Nat) :
    Bool × state V E × List Act :=
  if s.ready then (false, s, [])
  else
    let r := ctask.register_continuation s h
    (true, r.1, r.2)

/-- Embeds `ctask_awaiter::await_resume`: `task_.get_result()`. -/
def ctask_awaiter.await_resume {V E : Type} (s : state V E) : Option (Except E V) :=
  s.get_result

/-!
The executor (`class executor`) as a small-step machine.  Worker threads run
`executor::run_thread`; the lock-protected sections of that loop and of
`executor::schedule` are the atomic steps.  A worker is `busy` when it is at
the top of its loop (about to take the lock), `waiting` when blocked in
`cva_.wait` (which it enters only after observing an empty queue), `running w`
between dequeuing `w` and the return of `w->execute()`, and `exited` after
breaking out of the loop.
-/

/-- The phase of one worker thread of `executor::run_thread`. -/
inductive WPhase (α : Type)
  | busy
  | waiting
  | running (w : α)
  | exited
  deriving DecidableEq, Repr

/-- Whether a worker is blocked in `cva_.wait` (idle). -/
def WPhase.isWaiting {α : Type} : WPhase α → Bool
  | .waiting => true
  | _ => false

/-- Effect of `cva_.notify_one()` as issued by `executor::schedule`: it
unblocks one waiting worker when at least one worker is idle in `cva_.wait`,
and none otherwise.  The value is the number of workers woken. -/
def wokenBy {α : Type} (ws : List (WPhase α)) : Nat :=
  if ws.any WPhase.isWaiting then 1 else 0

/-- State of the executor machine: the guarded `queue_`, the stop flag
(`request_stop` on the workers' common stop source), the worker phases, and
ghost logs of submissions, dequeues (in dequeue order), items run to
completion, and how many workers each `schedule` call woke. -/
structure ExecSt (α : Type) where
  queue : List α
  stopReq : Bool
  workers : List (WPhase α)
  submitted : List α
  dequeued : List α
  finished : List α
  notifyLog : List Nat
  deriving DecidableEq, Repr

/-- Initial executor state: `number_of_threads` workers spawned at the top of
their loop, empty queue, no stop requested. -/
def execStart (α : Type) (numThreads : Nat) : ExecSt α :=
  { queue := [], stopReq := false, workers := List.replicate numThreads .busy,
    submitted := [], dequeued := [], finished := [], notifyLog := [] }

/-- The atomic steps of the executor, one per lock-delimited section of
`executor::schedule`, `executor::run_thread` and `executor::~executor`. -/
inductive EAct (α : Type)
  | schedule (w : α)
  | dequeue (i : Nat)
  | finish (i : Nat)
  | goWait (i : Nat)
  | exitEmptyStop (i : Nat)
  | exitWaitStop (i : Nat)
  | requestStop
  deriving DecidableEq, Repr

/-- One step of the executor machine (`none` when the action's guard fails):

* `schedule w`: `executor::schedule` — push under the lock, `notify_one`;
  always enabled, the caller never blocks.
* `dequeue i`: worker `i` takes the lock with a non-empty queue and pops the
  front.  A `busy` worker reaches the pop whatever the stop flag says (the
  loop only consults the stop token inside the empty-queue branch); a
  `waiting` worker wakes with the predicate true and reaches the pop only if
  stop has not been requested (it breaks first otherwise).
* `finish i`: `w->execute()` returns; the worker goes back to the loop top.
* `goWait i`: worker `i` observes an empty queue, stop not requested, and
  blocks in `cva_.wait`.
* `exitEmptyStop i`: worker `i` observes an empty queue with stop requested —
  `cva_.wait` returns at once and the worker breaks.
* `exitWaitStop i`: a waiting worker is woken with stop requested and breaks
  (the code checks `stop_requested()` before popping, whatever the queue
  holds).
* `requestStop`: `~executor` calls `request_stop` on the workers. -/
def estep {α : Type} (s : ExecSt α) : EAct α → Option (ExecSt α)
  | .schedule w =>
      some { s with queue := s.queue ++ [w], submitted := s.submitted ++ [w],
                    notifyLog := s.notifyLog ++ [wokenBy s.workers] }
  | .dequeue i =>
      match s.queue, s.workers[i]? with
      | w :: rest, some .busy =>
          some { s with queue := rest, workers := s.workers.set i (.running w),
                        dequeued := s.dequeued ++ [w] }
      | w :: rest, some .waiting =>
          if s.stopReq then none
          else
            some { s with queue := rest, workers := s.workers.set i (.running w),
                          dequeued := s.dequeued ++ [w] }
      | _, _ => none
  | .finish i =>
      match s.workers[i]? with
      | some (.running w) =>
          some { s with workers := s.workers.set i .busy, finished := s.finished ++ [w] }
      | _ => none
  | .goWait i =>
      match s.queue, s.workers[i]?, s.stopReq with
      | [], some .busy, false => some { s with workers := s.workers.set i .waiting }
      | _, _, _ => none
  | .exitEmptyStop i =>
      match s.queue, s.workers[i]?, s.stopReq with
      | [], some .busy, true => some { s with workers := s.workers.set i .exited }
      | _, _, _ => none
  | .exitWaitStop i =>
      match s.workers[i]?, s.stopReq with
      | some .waiting, true => some { s with workers := s.workers.set i .exited }
      | _, _ => none
  | .requestStop => some { s with stopReq := true }

/-- Run a list of executor steps from a state, failing if any guard fails. -/
def runE {α : Type} (s : ExecSt α) : List (EAct α) → Option (ExecSt α)
  | [] => some s
  | a :: as_ =>
      match estep s a with
      | some s1 => runE s1 as_
      | none => none

/-- Items held by one worker: the dequeued item while running, nothing
otherwise. -/
def phItems {α : Type} : WPhase α → Multiset α
  | .running w => {w}
  | .busy => 0
  | .waiting => 0
  | .exited => 0

/-- Multiset of the items currently held by `running` workers. -/
def runningItems {α : Type} (ws : List (WPhase α)) : Multiset α :=
  (ws.map phItems).sum

/-- The inductive invariant of the executor machine: the dequeue log is a
front segment of the submission log (the rest is still queued, in order), the
items run to completion together with the items currently in flight are
exactly the dequeued ones, and no `notify_one` ever woke more than one
worker. -/
def EInv {α : Type} (s : ExecSt α) : Prop :=
  s.dequeued ++ s.queue = s.submitted ∧
  (↑s.finished + runningItems s.workers : Multiset α) = ↑s.dequeued ∧
  ∀ m ∈ s.notifyLog, m ≤ 1

/-- The state mutations `ctask` code can perform on a live shared `state`
while or after the result is delivered, each taken from a member function of
`state` or `ctask`; a failing `std::promise` write throws and leaves the
state unchanged. -/
inductive StOp (V E : Type)
  | setHandleOp (h : Option Nat)
  | setNameOp (n : String)
  | setResultOp (v : V)
  | setExceptionOp (e : E)
  | registerOp (h : Nat)
  | resumeAllOp

/-- Apply one `StOp` to a shared state (the `Act` side effects are not needed
for the single-assignment argument). -/
def applyStOp {V E : Type} (s : state V E) : StOp V E → state V E
  | .setHandleOp h => s.set_handle h
  | .setNameOp n => s.set_name n
  | .setResultOp v =>
      match s.set_result v with
      | .ok s1 => s1
      | .error _ => s
  | .setExceptionOp e =>
      match s.set_exception e with
      | .ok s1 => s1
      | .error _ => s
  | .registerOp h => (ctask.register_continuation s h).1
  | .resumeAllOp => { s with mgr := (s.mgr.resume_all_continuations).1 }

/-- Apply a whole sequence of state mutations, modelling any interleaving of
calls from the producing coroutine and from concurrent `ctask` holders. -/
def applyStOps {V E : Type} (s : state V E) (ops : List (StOp V E)) : state V E :=
  ops.foldl applyStOp s

/-- The operations offered by `continuation_manager`, for reasoning about an
arbitrary sequence of calls. -/
inductive CMOp
  | reg (c : continuation)
  | resumeAll

/-- Apply one `continuation_manager` call, accumulating the scheduled
actions. -/
def applyCMOp : continuation_manager × List Act → CMOp → continuation_manager × List Act
  | (m, acts), .reg c => (m.register_continuation c, acts)
  | (m, acts), .resumeAll =>
      let r := m.resume_all_continuations
      (r.1, acts ++ r.2)

/-- Apply a sequence of `continuation_manager` calls. -/
def applyCMOps (st : continuation_manager × List Act) (ops : List CMOp) :
    continuation_manager × List Act :=
  ops.foldl applyCMOp st

/-- The continuations registered by a sequence of calls, in call order. -/
def regsOf : List CMOp → List continuation
  | [] => []
  | .reg c :: ops => c :: regsOf ops
  | .resumeAll :: ops => regsOf ops

/-- A freshly created, still pending task state, as in `auto p2 = mul(c, d);`
before the worker thread runs the frame. -/
def c1start : state Int String :=
  { handle := some 1, name := "mul", slot := .empty, mgr := ⟨[]⟩ }

/-- The `c1start` state after the awaiting coroutine (handle 10) has been
appended as a continuation and `return_value(42)` has stored the result. -/
def c1mid : state Int String :=
  { handle := some 1, name := "mul", slot := .value 42,
    mgr := ⟨[⟨10, globalExecId⟩]⟩ }

/-- An already completed task state with an empty continuation list, as seen
by a consumer that calls `register_continuation` after completion. -/
def c2done : state Int String :=
  { handle := none, name := "mul", slot := .value 5, mgr := ⟨[]⟩ }

/-- A schedule of executor steps: item 5 is submitted while the only worker
is busy (so `notify_one` wakes nobody) and runs to completion; the worker
then blocks on the empty queue; item 7 is submitted, but the stop request
from `~executor` wins the race and the woken worker exits without dequeuing
it. -/
def c5run : List (EAct Nat) :=
  [.schedule 5, .dequeue 0, .finish 0, .goWait 0, .schedule 7, .requestStop,
   .exitWaitStop 0]

/-- The executor state reached by `c5run`. -/
def c5final : ExecSt Nat :=
  { queue := [7], stopReq := true, workers := [.exited], submitted := [5, 7],
    dequeued := [5], finished := [5], notifyLog := [0, 1] }

/-- A schedule of executor steps in which item 9 is submitted concurrently
with shutdown: the waiting worker is woken, observes the stop request and
exits, leaving item 9 queued forever. -/
def c6run : List (EAct Nat) :=
  [.goWait 0, .schedule 9, .requestStop, .exitWaitStop 0]

/-- The executor state reached by `c6run`. -/
def c6final : ExecSt Nat :=
  { queue := [9], stopReq := true, workers := [.exited], submitted := [9],
    dequeued := [], finished := [], notifyLog := [1] }

/-- The executor state reached by `c5run` just before its final step: the
woken worker is still in the wait, with stop requested and item 7 queued. -/
def c6preExit : ExecSt Nat :=
  { queue := [7], stopReq := true, workers := [.waiting], submitted := [5, 7],
    dequeued := [5], finished := [5], notifyLog := [0, 1] }

theorem runningItems_nil {α : Type} : runningItems ([] : List (WPhase α)) = 0 :=
  rfl

theorem runningItems_cons {α : Type} (p : WPhase α) (ps : List (WPhase α)) :
    runningItems (p :: ps) = phItems p + runningItems ps := by
  simp [runningItems]

theorem runningItems_replicate_busy {α : Type} (n : Nat) :
    runningItems (List.replicate n (WPhase.busy : WPhase α)) = 0 := by
  induction n with
  | zero => rfl
  | succ k ih => simp [List.replicate, runningItems_cons, ih, phItems]

theorem runningItems_set {α : Type} :
    ∀ (ws : List (WPhase α)) (i : Nat) (p q : WPhase α), ws[i]? = some p →
      runningItems (ws.set i q) + phItems p = runningItems ws + phItems q
  | [], i, p, q, hp => by simp at hp
  | x :: xs, 0, p, q, hp => by
      simp only [List.getElem?_cons_zero, Option.some.injEq] at hp
      subst hp
      simp only [List.set, runningItems_cons]
      abel
  | x :: xs, i + 1, p, q, hp => by
      simp only [List.getElem?_cons_succ] at hp
      have ih := runningItems_set xs i p q hp
      simp only [List.set, runningItems_cons, add_assoc]
      exact congrArg (phItems x + ·) ih

theorem wokenBy_le_one {α : Type} (ws : List (WPhase α)) : wokenBy ws ≤ 1 := by
  unfold wokenBy
  split <;> simp

theorem EInv_step {α : Type} {s s' : ExecSt α} {a : EAct α}
    (h : estep s a = some s') (hinv : EInv s) : EInv s' := by
  obtain ⟨h1, h2, h3⟩ := hinv
  cases a with
  | schedule w =>
      simp only [estep, Option.some.injEq] at h
      subst h
      refine ⟨?_, h2, ?_⟩
      · show s.dequeued ++ (s.queue ++ [w]) = s.submitted ++ [w]
        rw [← List.append_assoc, h1]
      · intro m hm
        rcases List.mem_append.mp hm with hm | hm
        · exact h3 m hm
        · rw [List.mem_singleton.mp hm]
          exact wokenBy_le_one _
  | dequeue i =>
      rcases hq : s.queue with _ | ⟨w, rest⟩
      · simp [estep, hq] at h
      · rcases hw : s.workers[i]? with _ | p
        · simp [estep, hq, hw] at h
        · cases p with
          | busy =>
              simp only [estep, hq, hw, Option.some.injEq] at h
              subst h
              have hset := runningItems_set s.workers i WPhase.busy (.running w) hw
              simp only [phItems, add_zero] at hset
              refine ⟨?_, ?_, h3⟩
              · show (s.dequeued ++ [w]) ++ rest = s.submitted
                rw [List.append_assoc, List.singleton_append, ← hq, h1]
              · show (↑s.finished + runningItems (s.workers.set i (.running w)) : Multiset α) =
                  ↑(s.dequeued ++ [w])
                rw [hset, ← Multiset.coe_add, Multiset.coe_singleton, ← h2, add_assoc]
          | waiting =>
              cases hstop : s.stopReq with
              | true => simp [estep, hq, hw, hstop] at h
              | false =>
                  simp only [estep, hq, hw, hstop, Bool.false_eq_true, if_false,
                    Option.some.injEq] at h
                  subst h
                  have hset := runningItems_set s.workers i WPhase.waiting (.running w) hw
                  simp only [phItems, add_zero] at hset
                  refine ⟨?_, ?_, h3⟩
                  · show (s.dequeued ++ [w]) ++ rest = s.submitted
                    rw [List.append_assoc, List.singleton_append, ← hq, h1]
                  · show (↑s.finished + runningItems (s.workers.set i (.running w)) :
                        Multiset α) = ↑(s.dequeued ++ [w])
                    rw [hset, ← Multiset.coe_add, Multiset.coe_singleton, ← h2, add_assoc]
          | running w2 => simp [estep, hq, hw] at h
          | exited => simp [estep, hq, hw] at h
  | finish i =>
      rcases hw : s.workers[i]? with _ | p
      · simp [estep, hw] at h
      · cases p with
        | busy => simp [estep, hw] at h
        | waiting => simp [estep, hw] at h
        | exited => simp [estep, hw] at h
        | running w =>
            simp only [estep, hw, Option.some.injEq] at h
            subst h
            refine ⟨h1, ?_, h3⟩
            have hset := runningItems_set s.workers i (.running w) .busy hw
            simp only [phItems, add_zero] at hset
            calc (↑(s.finished ++ [w]) + runningItems (s.workers.set i .busy) : Multiset α)
                = ↑s.finished + (runningItems (s.workers.set i .busy) + {w}) := by
                  rw [← Multiset.coe_singleton, ← Multiset.coe_add]; abel
              _ = ↑s.finished + runningItems s.workers := by rw [hset]
              _ = ↑s.dequeued := h2
  | goWait i =>
      rcases hq : s.queue with _ | ⟨w, rest⟩
      · rcases hw : s.workers[i]? with _ | p
        · simp [estep, hq, hw] at h
        · cases p with
          | waiting => simp [estep, hq, hw] at h
          | running w2 => simp [estep, hq, hw] at h
          | exited => simp [estep, hq, hw] at h
          | busy =>
              cases hstop : s.stopReq with
              | true => simp [estep, hq, hw, hstop] at h
              | false =>
                  simp only [estep, hq, hw, hstop, Option.some.injEq] at h
                  subst h
                  refine ⟨?_, ?_, h3⟩
                  · show s.dequeued ++ ([] : List α) = s.submitted
                    rw [← hq, h1]
                  · have hset := runningItems_set s.workers i .busy .waiting hw
                    simp only [phItems, add_zero] at hset
                    show (↑s.finished + runningItems (s.workers.set i .waiting) :
                        Multiset α) = ↑s.dequeued
                    rw [hset]
                    exact h2
      · simp [estep, hq] at h
  | exitEmptyStop i =>
      rcases hq : s.queue with _ | ⟨w, rest⟩
      · rcases hw : s.workers[i]? with _ | p
        · simp [estep, hq, hw] at h
        · cases p with
          | waiting => simp [estep, hq, hw] at h
          | running w2 => simp [estep, hq, hw] at h
          | exited => simp [estep, hq, hw] at h
          | busy =>
              cases hstop : s.stopReq with
              | false => simp [estep, hq, hw, hstop] at h
              | true =>
                  simp only [estep, hq, hw, hstop, Option.some.injEq] at h
                  subst h
                  refine ⟨?_, ?_, h3⟩
                  · show s.dequeued ++ ([] : List α) = s.submitted
                    rw [← hq, h1]
                  · have hset := runningItems_set s.workers i .busy .exited hw
                    simp only [phItems, add_zero] at hset
                    show (↑s.finished + runningItems (s.workers.set i .exited) :
                        Multiset α) = ↑s.dequeued
                    rw [hset]
                    exact h2
      · simp [estep, hq] at h
  | exitWaitStop i =>
      rcases hw : s.workers[i]? with _ | p
      · simp [estep, hw] at h
      · cases p with
        | busy => simp [estep, hw] at h
        | running w2 => simp [estep, hw] at h
        | exited => simp [estep, hw] at h
        | waiting =>
            cases hstop : s.stopReq with
            | false => simp [estep, hw, hstop] at h
            | true =>
                simp only [estep, hw, hstop, Option.some.injEq] at h
                subst h
                refine ⟨h1, ?_, h3⟩
                have hset := runningItems_set s.workers i .waiting .exited hw
                simp only [phItems, add_zero] at hset
                rw [hset]
                exact h2
  | requestStop =>
      simp only [estep, Option.some.injEq] at h
      subst h
      exact ⟨h1, h2, h3⟩

theorem EInv_runE {α : Type} :
    ∀ (acts : List (EAct α)) (s sF : ExecSt α),
      runE s acts = some sF → EInv s → EInv sF
  | [], s, sF, h, hi => by
      simp only [runE, Option.some.injEq] at h
      subst h
      exact hi
  | a :: as_, s, sF, h, hi => by
      simp only [runE] at h
      cases he : estep s a with
      | none => rw [he] at h; exact Option.noConfusion h
      | some s1 =>
          rw [he] at h
          exact EInv_runE as_ s1 sF h (EInv_step he hi)

theorem EInv_start {α : Type} (n : Nat) : EInv (execStart α n) := by
  refine ⟨rfl, ?_, by intro m hm; simp [execStart] at hm⟩
  simp [execStart, runningItems_replicate_busy]

theorem set_lookup {α : Type} {l : List α} {j i : Nat} {x y b : α}
    (hj : l[j]? = some y) (h : (l.set j x)[i]? = some b) :
    (i = j ∧ b = x) ∨ (i ≠ j ∧ l[i]? = some b) := by
  by_cases hij : i = j
  · subst hij
    have hlt : i < l.length := (List.getElem?_eq_some.mp hj).1
    rw [List.getElem?_set_self hlt] at h
    exact Or.inl ⟨rfl, (Option.some.inj h).symm⟩
  · right
    refine ⟨hij, ?_⟩
    rwa [List.getElem?_set_ne (Ne.symm hij)] at h

theorem estep_exit_inv {α : Type} {s s' : ExecSt α} {a : EAct α} {i : Nat} {p : WPhase α}
    (h : estep s a = some s') (hp : s.workers[i]? = some p) (hne : p ≠ .exited)
    (hex : s'.workers[i]? = some .exited) :
    s.stopReq = true ∧ ((p = .busy ∧ s.queue = []) ∨ p = .waiting) := by
  cases a with
  | schedule w =>
      simp only [estep, Option.some.injEq] at h
      subst h
      have hex' : s.workers[i]? = some WPhase.exited := hex
      rw [hp] at hex'
      exact absurd (Option.some.inj hex') hne
  | dequeue j =>
      rcases hq : s.queue with _ | ⟨w, rest⟩
      · simp [estep, hq] at h
      · rcases hw : s.workers[j]? with _ | pj
        · simp [estep, hq, hw] at h
        · cases pj with
          | busy =>
              simp only [estep, hq, hw, Option.some.injEq] at h
              subst h
              have hex' : (s.workers.set j (.running w))[i]? = some WPhase.exited := hex
              rcases set_lookup hw hex' with ⟨_, hb⟩ | ⟨_, hold⟩
              · exact WPhase.noConfusion hb
              · rw [hp] at hold
                exact absurd (Option.some.inj hold) hne
          | waiting =>
              cases hstop : s.stopReq with
              | true => simp [estep, hq, hw, hstop] at h
              | false =>
                  simp only [estep, hq, hw, hstop, Bool.false_eq_true, if_false,
                    Option.some.injEq] at h
                  subst h
                  have hex' : (s.workers.set j (.running w))[i]? = some WPhase.exited := hex
                  rcases set_lookup hw hex' with ⟨_, hb⟩ | ⟨_, hold⟩
                  · exact WPhase.noConfusion hb
                  · rw [hp] at hold
                    exact absurd (Option.some.inj hold) hne
          | running w2 => simp [estep, hq, hw] at h
          | exited => simp [estep, hq, hw] at h
  | finish j =>
      rcases hw : s.workers[j]? with _ | pj
      · simp [estep, hw] at h
      · cases pj with
        | busy => simp [estep, hw] at h
        | waiting => simp [estep, hw] at h
        | exited => simp [estep, hw] at h
        | running w =>
            simp only [estep, hw, Option.some.injEq] at h
            subst h
            have hex' : (s.workers.set j .busy)[i]? = some WPhase.exited := hex
            rcases set_lookup hw hex' with ⟨_, hb⟩ | ⟨_, hold⟩
            · exact WPhase.noConfusion hb
            · rw [hp] at hold
              exact absurd (Option.some.inj hold) hne
  | goWait j =>
      rcases hq : s.queue with _ | ⟨w, rest⟩
      · rcases hw : s.workers[j]? with _ | pj
        · simp [estep, hq, hw] at h
        · cases pj with
          | waiting => simp [estep, hq, hw] at h
          | running w2 => simp [estep, hq, hw] at h
          | exited => simp [estep, hq, hw] at h
          | busy =>
              cases hstop : s.stopReq with
              | true => simp [estep, hq, hw, hstop] at h
              | false =>
                  simp only [estep, hq, hw, hstop, Option.some.injEq] at h
                  subst h
                  have hex' : (s.workers.set j .waiting)[i]? = some WPhase.exited := hex
                  rcases set_lookup hw hex' with ⟨_, hb⟩ | ⟨_, hold⟩
                  · exact WPhase.noConfusion hb
                  · rw [hp] at hold
                    exact absurd (Option.some.inj hold) hne
      · simp [estep, hq] at h
  | exitEmptyStop j =>
      rcases hq : s.queue with _ | ⟨w, rest⟩
      · rcases hw : s.workers[j]? with _ | pj
        · simp [estep, hq, hw] at h
        · cases pj with
          | waiting => simp [estep, hq, hw] at h
          | running w2 => simp [estep, hq, hw] at h
          | exited => simp [estep, hq, hw] at h
          | busy =>
              cases hstop : s.stopReq with
              | false => simp [estep, hq, hw, hstop] at h
              | true =>
                  simp only [estep, hq, hw, hstop, Option.some.injEq] at h
                  subst h
                  have hex' : (s.workers.set j .exited)[i]? = some WPhase.exited := hex
                  rcases set_lookup hw hex' with ⟨hij, _⟩ | ⟨_, hold⟩
                  · subst hij
                    rw [hp] at hw
                    exact ⟨rfl, Or.inl ⟨Option.some.inj hw, rfl⟩⟩
                  · rw [hp] at hold
                    exact absurd (Option.some.inj hold) hne
      · simp [estep, hq] at h
  | exitWaitStop j =>
      rcases hw : s.workers[j]? with _ | pj
      · simp [estep, hw] at h
      · cases pj with
        | busy => simp [estep, hw] at h
        | running w2 => simp [estep, hw] at h
        | exited => simp [estep, hw] at h
        | waiting =>
            cases hstop : s.stopReq with
            | false => simp [estep, hw, hstop] at h
            | true =>
                simp only [estep, hw, hstop, Option.some.injEq] at h
                subst h
                have hex' : (s.workers.set j .exited)[i]? = some WPhase.exited := hex
                rcases set_lookup hw hex' with ⟨hij, _⟩ | ⟨_, hold⟩
                · subst hij
                  rw [hp] at hw
                  exact ⟨rfl, Or.inr (Option.some.inj hw)⟩
                · rw [hp] at hold
                  exact absurd (Option.some.inj hold) hne
  | requestStop =>
      simp only [estep, Option.some.injEq] at h
      subst h
      have hex' : s.workers[i]? = some WPhase.exited := hex
      rw [hp] at hex'
      exact absurd (Option.some.inj hex') hne

theorem estep_wait_inv {α : Type} {s s' : ExecSt α} {a : EAct α} {i : Nat} {p : WPhase α}
    (h : estep s a = some s') (hp : s.workers[i]? = some p) (hne : p ≠ .waiting)
    (hwt : s'.workers[i]? = some .waiting) :
    s.queue = [] ∧ s.stopReq = false := by
  cases a with
  | schedule w =>
      simp only [estep, Option.some.injEq] at h
      subst h
      have hwt' : s.workers[i]? = some WPhase.waiting := hwt
      rw [hp] at hwt'
      exact absurd (Option.some.inj hwt') hne
  | dequeue j =>
      rcases hq : s.queue with _ | ⟨w, rest⟩
      · simp [estep, hq] at h
      · rcases hw : s.workers[j]? with _ | pj
        · simp [estep, hq, hw] at h
        · cases pj with
          | busy =>
              simp only [estep, hq, hw, Option.some.injEq] at h
              subst h
              have hwt' : (s.workers.set j (.running w))[i]? = some WPhase.waiting := hwt
              rcases set_lookup hw hwt' with ⟨_, hb⟩ | ⟨_, hold⟩
              · exact WPhase.noConfusion hb
              · rw [hp] at hold
                exact absurd (Option.some.inj hold) hne
          | waiting =>
              cases hstop : s.stopReq with
              | true => simp [estep, hq, hw, hstop] at h
              | false =>
                  simp only [estep, hq, hw, hstop, Bool.false_eq_true, if_false,
                    Option.some.injEq] at h
                  subst h
                  have hwt' : (s.workers.set j (.running w))[i]? = some WPhase.waiting := hwt
                  rcases set_lookup hw hwt' with ⟨_, hb⟩ | ⟨_, hold⟩
                  · exact WPhase.noConfusion hb
                  · rw [hp] at hold
                    exact absurd (Option.some.inj hold) hne
          | running w2 => simp [estep, hq, hw] at h
          | exited => simp [estep, hq, hw] at h
  | finish j =>
      rcases hw : s.workers[j]? with _ | pj
      · simp [estep, hw] at h
      · cases pj with
        | busy => simp [estep, hw] at h
        | waiting => simp [estep, hw] at h
        | exited => simp [estep, hw] at h
        | running w =>
            simp only [estep, hw, Option.some.injEq] at h
            subst h
            have hwt' : (s.workers.set j .busy)[i]? = some WPhase.waiting := hwt
            rcases set_lookup hw hwt' with ⟨_, hb⟩ | ⟨_, hold⟩
            · exact WPhase.noConfusion hb
            · rw [hp] at hold
              exact absurd (Option.some.inj hold) hne
  | goWait j =>
      rcases hq : s.queue with _ | ⟨w, rest⟩
      · rcases hw : s.workers[j]? with _ | pj
        · simp [estep, hq, hw] at h
        · cases pj with
          | waiting => simp [estep, hq, hw] at h
          | running w2 => simp [estep, hq, hw] at h
          | exited => simp [estep, hq, hw] at h
          | busy =>
              cases hstop : s.stopReq with
              | true => simp [estep, hq, hw, hstop] at h
              | false =>
                  simp only [estep, hq, hw, hstop, Option.some.injEq] at h
                  subst h
                  exact ⟨rfl, rfl⟩
      · simp [estep, hq] at h
  | exitEmptyStop j =>
      rcases hq : s.queue with _ | ⟨w, rest⟩
      · rcases hw : s.workers[j]? with _ | pj
        · simp [estep, hq, hw] at h
        · cases pj with
          | waiting => simp [estep, hq, hw] at h
          | running w2 => simp [estep, hq, hw] at h
          | exited => simp [estep, hq, hw] at h
          | busy =>
              cases hstop : s.stopReq with
              | false => simp [estep, hq, hw, hstop] at h
              | true =>
                  simp only [estep, hq, hw, hstop, Option.some.injEq] at h
                  subst h
                  have hwt' : (s.workers.set j .exited)[i]? = some WPhase.waiting := hwt
                  rcases set_lookup hw hwt' with ⟨_, hb⟩ | ⟨_, hold⟩
                  · exact WPhase.noConfusion hb
                  · rw [hp] at hold
                    exact absurd (Option.some.inj hold) hne
      · simp [estep, hq] at h
  | exitWaitStop j =>
      rcases hw : s.workers[j]? with _ | pj
      · simp [estep, hw] at h
      · cases pj with
        | busy => simp [estep, hw] at h
        | running w2 => simp [estep, hw] at h
        | exited => simp [estep, hw] at h
        | waiting =>
            cases hstop : s.stopReq with
            | false => simp [estep, hw, hstop] at h
            | true =>
                simp only [estep, hw, hstop, Option.some.injEq] at h
                subst h
                have hwt' : (s.workers.set j .exited)[i]? = some WPhase.waiting := hwt
                rcases set_lookup hw hwt' with ⟨_, hb⟩ | ⟨_, hold⟩
                · exact WPhase.noConfusion hb
                · rw [hp] at hold
                  exact absurd (Option.some.inj hold) hne
  | requestStop =>
      simp only [estep, Option.some.injEq] at h
      subst h
      have hwt' : s.workers[i]? = some WPhase.waiting := hwt
      rw [hp] at hwt'
      exact absurd (Option.some.inj hwt') hne

theorem estep_run_inv {α : Type} {s s' : ExecSt α} {a : EAct α} {i : Nat} {w : α}
    (h : estep s a = some s') (hp : s.workers[i]? = some (.running w)) :
    s'.workers[i]? = some (.running w) ∨
      (a = .finish i ∧ s'.workers[i]? = some .busy ∧ s'.finished = s.finished ++ [w]) := by
  cases a with
  | schedule w2 =>
      simp only [estep, Option.some.injEq] at h
      subst h
      exact Or.inl hp
  | dequeue j =>
      rcases hq : s.queue with _ | ⟨w2, rest⟩
      · simp [estep, hq] at h
      · rcases hw : s.workers[j]? with _ | pj
        · simp [estep, hq, hw] at h
        · cases pj with
          | busy =>
              simp only [estep, hq, hw, Option.some.injEq] at h
              subst h
              by_cases hij : i = j
              · subst hij
                rw [hp] at hw
                exact WPhase.noConfusion (Option.some.inj hw)
              · left
                show (s.workers.set j (.running w2))[i]? = some (.running w)
                rwa [List.getElem?_set_ne (Ne.symm hij)]
          | waiting =>
              cases hstop : s.stopReq with
              | true => simp [estep, hq, hw, hstop] at h
              | false =>
                  simp only [estep, hq, hw, hstop, Bool.false_eq_true, if_false,
                    Option.some.injEq] at h
                  subst h
                  by_cases hij : i = j
                  · subst hij
                    rw [hp] at hw
                    exact WPhase.noConfusion (Option.some.inj hw)
                  · left
                    show (s.workers.set j (.running w2))[i]? = some (.running w)
                    rwa [List.getElem?_set_ne (Ne.symm hij)]
          | running w3 => simp [estep, hq, hw] at h
          | exited => simp [estep, hq, hw] at h
  | finish j =>
      rcases hw : s.workers[j]? with _ | pj
      · simp [estep, hw] at h
      · cases pj with
        | busy => simp [estep, hw] at h
        | waiting => simp [estep, hw] at h
        | exited => simp [estep, hw] at h
        | running wj =>
            simp only [estep, hw, Option.some.injEq] at h
            subst h
            by_cases hij : i = j
            · subst hij
              rw [hp] at hw
              have hwj : WPhase.running w = WPhase.running wj := Option.some.inj hw
              cases hwj
              right
              refine ⟨rfl, ?_, rfl⟩
              show (s.workers.set i .busy)[i]? = some WPhase.busy
              exact List.getElem?_set_self (List.getElem?_eq_some.mp hp).1
            · left
              show (s.workers.set j .busy)[i]? = some (.running w)
              rwa [List.getElem?_set_ne (Ne.symm hij)]
  | goWait j =>
      rcases hq : s.queue with _ | ⟨w2, rest⟩
      · rcases hw : s.workers[j]? with _ | pj
        · simp [estep, hq, hw] at h
        · cases pj with
          | waiting => simp [estep, hq, hw] at h
          | running w3 => simp [estep, hq, hw] at h
          | exited => simp [estep, hq, hw] at h
          | busy =>
              cases hstop : s.stopReq with
              | true => simp [estep, hq, hw, hstop] at h
              | false =>
                  simp only [estep, hq, hw, hstop, Option.some.injEq] at h
                  subst h
                  by_cases hij : i = j
                  · subst hij
                    rw [hp] at hw
                    exact WPhase.noConfusion (Option.some.inj hw)
                  · left
                    show (s.workers.set j .waiting)[i]? = some (.running w)
                    rwa [List.getElem?_set_ne (Ne.symm hij)]
      · simp [estep, hq] at h
  | exitEmptyStop j =>
      rcases hq : s.queue with _ | ⟨w2, rest⟩
      · rcases hw : s.workers[j]? with _ | pj
        · simp [estep, hq, hw] at h
        · cases pj with
          | waiting => simp [estep, hq, hw] at h
          | running w3 => simp [estep, hq, hw] at h
          | exited => simp [estep, hq, hw] at h
          | busy =>
              cases hstop : s.stopReq with
              | false => simp [estep, hq, hw, hstop] at h
              | true =>
                  simp only [estep, hq, hw, hstop, Option.some.injEq] at h
                  subst h
                  by_cases hij : i = j
                  · subst hij
                    rw [hp] at hw
                    exact WPhase.noConfusion (Option.some.inj hw)
                  · left
                    show (s.workers.set j .exited)[i]? = some (.running w)
                    rwa [List.getElem?_set_ne (Ne.symm hij)]
      · simp [estep, hq] at h
  | exitWaitStop j =>
      rcases hw : s.workers[j]? with _ | pj
      · simp [estep, hw] at h
      · cases pj with
        | busy => simp [estep, hw] at h
        | running w3 => simp [estep, hw] at h
        | exited => simp [estep, hw] at h
        | waiting =>
            cases hstop : s.stopReq with
            | false => simp [estep, hw, hstop] at h
            | true =>
                simp only [estep, hw, hstop, Option.some.injEq] at h
                subst h
                by_cases hij : i = j
                · subst hij
                  rw [hp] at hw
                  exact WPhase.noConfusion (Option.some.inj hw)
                · left
                  show (s.workers.set j .exited)[i]? = some (.running w)
                  rwa [List.getElem?_set_ne (Ne.symm hij)]
  | requestStop =>
      simp only [estep, Option.some.injEq] at h
      subst h
      exact Or.inl hp

theorem foldl_register_continuations (cs : List continuation) :
    ∀ m : continuation_manager,
      (cs.foldl continuation_manager.register_continuation m).continuations =
        m.continuations ++ cs := by
  induction cs with
  | nil => intro m; simp
  | cons c cs ih =>
      intro m
      rw [List.foldl_cons, ih]
      simp [continuation_manager.register_continuation]

theorem applyCMOps_continuations (ops : List CMOp) :
    ∀ (m : continuation_manager) (acts : List Act),
      ((applyCMOps (m, acts) ops).1).continuations = m.continuations ++ regsOf ops := by
  induction ops with
  | nil => intro m acts; simp [applyCMOps, regsOf]
  | cons op ops ih =>
      intro m acts
      cases op with
      | reg c =>
          show ((applyCMOps (applyCMOp (m, acts) (.reg c)) ops).1).continuations = _
          simp only [applyCMOp]
          rw [ih]
          simp [continuation_manager.register_continuation, regsOf]
      | resumeAll =>
          show ((applyCMOps (applyCMOp (m, acts) .resumeAll) ops).1).continuations = _
          simp only [applyCMOp]
          rw [ih]
          simp [regsOf, continuation_manager.resume_all_continuations]

theorem applyStOp_slot {V E : Type} (s : state V E) (op : StOp V E)
    (hs : s.slot ≠ Slot.empty) : (applyStOp s op).slot = s.slot := by
  cases op with
  | setHandleOp h => rfl
  | setNameOp n => rfl
  | setResultOp v =>
      simp only [applyStOp]
      cases hslot : s.slot with
      | empty => exact absurd hslot hs
      | value v2 => simp [state.set_result, hslot]
      | error e2 => simp [state.set_result, hslot]
  | setExceptionOp e =>
      simp only [applyStOp]
      cases hslot : s.slot with
      | empty => exact absurd hslot hs
      | value v2 => simp [state.set_exception, hslot]
      | error e2 => simp [state.set_exception, hslot]
  | registerOp h => rfl
  | resumeAllOp => rfl

theorem applyStOps_slot {V E : Type} (ops : List (StOp V E)) :
    ∀ s : state V E, s.slot ≠ Slot.empty → (applyStOps s ops).slot = s.slot := by
  induction ops with
  | nil => intro s hs; rfl
  | cons op ops ih =>
      intro s hs
      show (applyStOps (applyStOp s op) ops).slot = s.slot
      rw [ih (applyStOp s op) (by rw [applyStOp_slot s op hs]; exact hs),
        applyStOp_slot s op hs]

theorem get_result_congr {V E : Type} {s1 s2 : state V E} (h : s1.slot = s2.slot) :
    s1.get_result = s2.get_result := by
  unfold state.get_result
  rw [h]

/-- C1: the claim states that a continuation registered strictly before the
task's result is written is resumed exactly once, and in no execution twice.
The code violates it: in the interleaving where `register_continuation` has
appended the continuation (handle 10), `return_value` then completes the task
and schedules one resumer for it, and the registrar's `ready()` re-check then
runs, the re-check observes the task ready and calls
`resume_all_continuations` again, scheduling a second resumer for the same
handle; each scheduled resumer, once executed by a worker, resumes the handle
once, so the handle is resumed twice.  This theorem evaluates the embedded
code along that interleaving. -/
theorem c1_double_submission_of_early_continuation :
    registerAppendStep c1start 10 =
      { handle := some 1, name := "mul", slot := .empty,
        mgr := ⟨[⟨10, globalExecId⟩]⟩ } ∧
    coroutine_promise.return_value
        (some { handle := some 1, name := "mul", slot := .empty,
                mgr := ⟨[⟨10, globalExecId⟩]⟩ }) 42 =
      .ok (some c1mid, [Act.sched globalExecId (.resumer 10)]) ∧
    registerCheckStep c1mid = [Act.sched globalExecId (.resumer 10)] ∧
    ([Act.sched globalExecId (.resumer 10)] ++
        [Act.sched globalExecId (.resumer 10)]).count
      (Act.sched globalExecId (.resumer 10)) = 2 ∧
    resumer.execute 10 = Act.resume 10 :=
  ⟨rfl, rfl, rfl, rfl, rfl⟩

/-- C2 counterexample: the claim states that a continuation registered after
completion is submitted to the executor instead of being appended, never
enters the wait list and is never picked up by `resume_all`.  On the
already-complete state `c2done`, `ctask::register_continuation` puts the
handle into the wait list and the submission it produces is exactly the
output of `resume_all_continuations` on that wait list — so the handle does
enter the list and is picked up by `resume_all`. -/
theorem c2_counterexample :
    (ctask.register_continuation c2done 7).1.mgr.continuations =
      [⟨7, globalExecId⟩] ∧
    (ctask.register_continuation c2done 7).2 =
      (continuation_manager.resume_all_continuations ⟨[⟨7, globalExecId⟩]⟩).2 ∧
    (ctask.register_continuation c2done 7).2 =
      [Act.sched globalExecId (.resumer 7)] :=
  ⟨rfl, rfl, rfl⟩

/-- C2 (amended): if `register_continuation` is called on a task that is
already complete at call time, the handle is first appended to the wait list
and then, because the readiness re-check succeeds, `resume_all_continuations`
is invoked, which submits a resumer for every listed continuation — including
the new handle — to its target executor; the handle's resumption is therefore
submitted to the executor, but through the wait list rather than instead of
it. -/
theorem c2_register_after_completion {V E : Type} (s : state V E) (h : Nat)
    (hready : s.ready = true) :
    (ctask.register_continuation s h).1.mgr.continuations =
      s.mgr.continuations ++ [(⟨h, globalExecId⟩ : continuation)] ∧
    (ctask.register_continuation s h).2 =
      (s.mgr.continuations ++ [(⟨h, globalExecId⟩ : continuation)]).map
        resume_continuation ∧
    Act.sched globalExecId (.resumer h) ∈ (ctask.register_continuation s h).2 := by
  have hready1 : (registerAppendStep s h).ready = true := hready
  have h2 : (ctask.register_continuation s h).2 =
      (s.mgr.continuations ++ [(⟨h, globalExecId⟩ : continuation)]).map
        resume_continuation := by
    show registerCheckStep (registerAppendStep s h) = _
    unfold registerCheckStep
    rw [hready1]
    simp [continuation_manager.resume_all_continuations, registerAppendStep,
      continuation_manager.register_continuation]
  refine ⟨rfl, h2, ?_⟩
  rw [h2]
  exact List.mem_map.mpr ⟨(⟨h, globalExecId⟩ : continuation), by simp, rfl⟩

/-- Witness for C2: on the concrete completed state `c2done`, registering
handle 7 leaves it in the wait list. -/
theorem c2_register_after_completion_witness :
    (ctask.register_continuation c2done 7).1.mgr.continuations =
      [⟨7, globalExecId⟩] ∧
    Act.sched globalExecId (.resumer 7) ∈ (ctask.register_continuation c2done 7).2 :=
  ⟨(c2_register_after_completion c2done 7 rfl).1,
   (c2_register_after_completion c2done 7 rfl).2.2⟩

/-- C3: when task A awaits task B, `await_ready` reports B's readiness; if B
is ready, `await_suspend` returns `false` and A resumes inline with no
submission to any executor (no thread hop); otherwise `await_suspend`
registers A's handle with B (paired with the provider's executor) and returns
`true`; `await_resume` yields B's stored value or re-raises B's stored
failure into A. -/
theorem c3_awaiter_protocol {V E : Type} (s : state V E) (h : Nat) (v : V) (e : E) :
    (s.ready = true →
      ctask_awaiter.await_ready s = true ∧
      ctask_awaiter.await_suspend s h = (false, s, [])) ∧
    (s.ready = false →
      ctask_awaiter.await_ready s = false ∧
      (ctask_awaiter.await_suspend s h).1 = true ∧
      (ctask_awaiter.await_suspend s h).2.1 =
        { s with mgr := ⟨s.mgr.continuations ++ [⟨h, globalExecId⟩]⟩ } ∧
      (ctask_awaiter.await_suspend s h).2.2 = []) ∧
    (s.slot = .value v → ctask_awaiter.await_resume s = some (.ok v)) ∧
    (s.slot = .error e → ctask_awaiter.await_resume s = some (.error e)) := by
  refine ⟨?_, ?_, ?_, ?_⟩
  · intro hr
    exact ⟨hr, by simp [ctask_awaiter.await_suspend, hr]⟩
  · intro hr
    have hempty : s.slot = Slot.empty := by
      cases hs : s.slot with
      | empty => rfl
      | value v2 => simp [state.ready, hs] at hr
      | error e2 => simp [state.ready, hs] at hr
    have hready1 : (registerAppendStep s h).ready = false := hr
    refine ⟨hr, ?_, ?_, ?_⟩
    · simp [ctask_awaiter.await_suspend, hr]
    · simp [ctask_awaiter.await_suspend, hr, ctask.register_continuation,
        registerAppendStep, continuation_manager.register_continuation]
    · simp [ctask_awaiter.await_suspend, hr, ctask.register_continuation,
        registerCheckStep, hready1]
  · intro hs
    simp [ctask_awaiter.await_resume, state.get_result, hs]
  · intro hs
    simp [ctask_awaiter.await_resume, state.get_result, hs]

/-- Witness for C3: the ready path at the completed state `c2done` (inline
resume, no actions, value delivered) and the pending path at `c1start`
(suspend and register). -/
theorem c3_awaiter_protocol_witness :
    (ctask_awaiter.await_ready c2done = true ∧
      ctask_awaiter.await_suspend c2done 7 = (false, c2done, [])) ∧
    (ctask_awaiter.await_ready c1start = false ∧
      (ctask_awaiter.await_suspend c1start 7).1 = true ∧
      (ctask_awaiter.await_suspend c1start 7).2.1 =
        { c1start with mgr := ⟨c1start.mgr.continuations ++ [⟨7, globalExecId⟩]⟩ } ∧
      (ctask_awaiter.await_suspend c1start 7).2.2 = []) ∧
    ctask_awaiter.await_resume c2done = some (.ok 5) :=
  ⟨(c3_awaiter_protocol c2done 7 5 "err").1 rfl,
   (c3_awaiter_protocol c1start 7 5 "err").2.1 rfl,
   (c3_awaiter_protocol c2done 7 5 "err").2.2.1 rfl⟩

/-- C4: the continuation manager's list only ever grows — `register`
appends, `resume_all_continuations` leaves the vector unmodified, any
sequence of manager calls ends with the initial list plus all registrations
in order — and each `resume_all_continuations` call schedules one resumer per
continuation registered up to that point, so a later call re-emits the
submissions of an earlier call as a prefix. -/
theorem c4_continuation_list_monotone (m : continuation_manager) (acts : List Act)
    (ops : List CMOp) (cs : List continuation) (c : continuation) :
    (m.register_continuation c).continuations = m.continuations ++ [c] ∧
    m.resume_all_continuations.1 = m ∧
    m.resume_all_continuations.2 = m.continuations.map resume_continuation ∧
    ((applyCMOps (m, acts) ops).1).continuations = m.continuations ++ regsOf ops ∧
    (cs.foldl continuation_manager.register_continuation m).resume_all_continuations.2 =
      m.resume_all_continuations.2 ++ cs.map resume_continuation := by
  refine ⟨rfl, rfl, rfl, applyCMOps_continuations ops m acts, ?_⟩
  show ((cs.foldl continuation_manager.register_continuation m).continuations).map
      resume_continuation = _
  rw [foldl_register_continuations cs m]
  simp [continuation_manager.resume_all_continuations]

/-- C5 counterexample: the claim states that every submitted item is executed
exactly once and that every `schedule` call wakes exactly one idle worker.
In the concrete run `c5run`, the first `schedule` finds the only worker busy,
so `notify_one` wakes nobody (logged 0), and item 7 is submitted but the stop
request wins: the worker exits and 7 is never dequeued or executed. -/
theorem c5_counterexample :
    runE (execStart Nat 1) c5run = some c5final ∧
    c5final.submitted.count 7 = 1 ∧
    c5final.finished.count 7 = 0 ∧
    c5final.notifyLog = [0, 1] ∧
    ¬ (∀ m ∈ c5final.notifyLog, m = 1) := by
  refine ⟨by decide, by decide, by decide, rfl, ?_⟩
  intro hall
  exact absurd (hall 0 (by decide)) (by decide)

/-- C5 (amended): for any run of the executor from its start state, the
dequeue log is a front segment of the submission log (items are dequeued in
submission order, each at most once); the items run to completion plus the
items currently in flight are exactly the dequeued ones (each dequeued item
is executed exactly once, and all submitted items are once the queue is
drained and no worker is mid-item); `schedule` is enabled in every state and
only pushes and notifies (the caller never blocks); and each submission wakes
at most one idle worker — exactly one when some worker is idle in the wait,
none otherwise. -/
theorem c5_fifo_amended {α : Type} (n : Nat) (acts : List (EAct α)) (sF : ExecSt α)
    (h : runE (execStart α n) acts = some sF) :
    sF.dequeued ++ sF.queue = sF.submitted ∧
    (↑sF.finished + runningItems sF.workers : Multiset α) = ↑sF.dequeued ∧
    (sF.queue = [] → sF.dequeued = sF.submitted) ∧
    (runningItems sF.workers = 0 → (↑sF.finished : Multiset α) = ↑sF.dequeued) ∧
    (∀ (s : ExecSt α) (w : α), estep s (.schedule w) =
      some { s with queue := s.queue ++ [w], submitted := s.submitted ++ [w],
                    notifyLog := s.notifyLog ++ [wokenBy s.workers] }) ∧
    (∀ m ∈ sF.notifyLog, m ≤ 1) ∧
    (∀ ws : List (WPhase α),
      (ws.any WPhase.isWaiting = true → wokenBy ws = 1) ∧
      (ws.any WPhase.isWaiting = false → wokenBy ws = 0)) := by
  obtain ⟨h1, h2, h3⟩ := EInv_runE acts (execStart α n) sF h (EInv_start n)
  refine ⟨h1, h2, ?_, ?_, ?_, h3, ?_⟩
  · intro hq
    rw [← h1, hq, List.append_nil]
  · intro hr
    rw [← h2, hr, add_zero]
  · intro s w
    rfl
  · intro ws
    constructor <;> intro hany <;> simp [wokenBy, hany]

/-- Witness for C5 (amended): the invariant evaluated on the concrete run
`c5run`: the two dequeued-prefix and exactly-once equations at `c5final`. -/
theorem c5_fifo_amended_witness :
    c5final.dequeued ++ c5final.queue = c5final.submitted ∧
    (↑c5final.finished + runningItems c5final.workers : Multiset Nat) =
      ↑c5final.dequeued :=
  ⟨(c5_fifo_amended 1 c5run c5final (by decide)).1,
   (c5_fifo_amended 1 c5run c5final (by decide)).2.1⟩

/-- C6: after shutdown is requested, a worker exits only when stop has been
requested and it is either at the top of its loop with the queue observed
empty, or blocked in the wait (which it entered only after observing an empty
queue with no stop pending); a worker holding a dequeued item keeps holding
it until the `finish` step that records the item as run to completion, so no
in-flight item is aborted; and the concrete run `c6run` shows that an item
still queued when the workers exit is never dequeued and never runs. -/
theorem c6_shutdown_discipline :
    (∀ (α : Type) (s s' : ExecSt α) (a : EAct α) (i : Nat) (p : WPhase α),
        estep s a = some s' → s.workers[i]? = some p → p ≠ .exited →
        s'.workers[i]? = some .exited →
        s.stopReq = true ∧ ((p = .busy ∧ s.queue = []) ∨ p = .waiting)) ∧
    (∀ (α : Type) (s s' : ExecSt α) (a : EAct α) (i : Nat) (p : WPhase α),
        estep s a = some s' → s.workers[i]? = some p → p ≠ .waiting →
        s'.workers[i]? = some .waiting → s.queue = [] ∧ s.stopReq = false) ∧
    (∀ (α : Type) (s s' : ExecSt α) (a : EAct α) (i : Nat) (w : α),
        estep s a = some s' → s.workers[i]? = some (.running w) →
        s'.workers[i]? = some (.running w) ∨
          (a = .finish i ∧ s'.workers[i]? = some .busy ∧
            s'.finished = s.finished ++ [w])) ∧
    (runE (execStart Nat 1) c6run = some c6final ∧ c6final.queue = [9] ∧
      c6final.dequeued = [] ∧ c6final.finished = [] ∧
      c6final.workers = [.exited]) := by
  refine ⟨?_, ?_, ?_, by decide, by decide, by decide, by decide, by decide⟩
  · intro α s s' a i p h hp hne hex
    exact estep_exit_inv h hp hne hex
  · intro α s s' a i p h hp hne hwt
    exact estep_wait_inv h hp hne hwt
  · intro α s s' a i w h hp
    exact estep_run_inv h hp

/-- Witness for C6: the exit step closing the run `c5run` — the waiting
worker of `c6preExit` exits under a pending stop request. -/
theorem c6_shutdown_discipline_witness :
    c6preExit.stopReq = true ∧
    ((WPhase.waiting = (WPhase.busy : WPhase Nat) ∧ c6preExit.queue = []) ∨
      WPhase.waiting = (WPhase.waiting : WPhase Nat)) :=
  c6_shutdown_discipline.1 Nat c6preExit c5final (.exitWaitStop 0) 0 .waiting
    (by decide) (by decide) (by decide) (by decide)

/-- C7: a failure raised inside a task body is captured where it escapes:
`unhandled_exception` stores the error itself into the result slot (and
schedules nothing); `state::execute`, which resumes the frame with no
handler, returns normally on the exception path (clearing the handle at
`final_suspend`), so nothing escapes into the worker dispatch loop; and the
stored failure surfaces only at `get_result`, which re-raises exactly the
original error. -/
theorem c7_exception_capture {V E : Type} (s : state V E) (e : E)
    (hs : s.slot = Slot.empty) :
    coroutine_promise.unhandled_exception (some s) e =
      .ok (some { s with slot := .error e }, []) ∧
    state.execute (some s) (.exn e) =
      .ok (some { s with slot := .error e, handle := none }, []) ∧
    state.get_result ({ s with slot := Slot.error e, handle := none } : state V E) =
      some (.error e) ∧
    state.get_result s = none := by
  refine ⟨?_, ?_, rfl, ?_⟩
  · simp [coroutine_promise.unhandled_exception, state.set_exception, hs]
  · simp [state.execute, coroutine_promise.unhandled_exception, state.set_exception,
      hs, coroutine_promise.final_suspend, state.set_handle]
  · simp [state.get_result, hs]

/-- Witness for C7: the exception path evaluated on the concrete pending
state `c1start`. -/
theorem c7_exception_capture_witness :
    state.execute (some c1start) (.exn "boom") =
      .ok (some { c1start with slot := .error "boom", handle := none }, []) :=
  (c7_exception_capture c1start "boom" rfl).2.1

/-- C8: `get_result` blocks (returns nothing) exactly while the slot is
empty; once the task has a result, any sequence of further operations on the
shared state — including repeated or concurrent result reads, registrations,
and even later write attempts, which throw without mutating — leaves the slot
untouched, so every `get_result` call returns the identical stored value or
error. -/
theorem c8_get_result_idempotent {V E : Type} (s : state V E) (ops : List (StOp V E))
    (r : Except E V) (h : s.get_result = some r) :
    (applyStOps s ops).get_result = some r ∧
    (s.slot = Slot.empty ↔ s.get_result = none) ∧
    (∀ v : V, s.slot = .value v → r = .ok v) ∧
    (∀ e : E, s.slot = .error e → r = .error e) := by
  have hslot : s.slot ≠ Slot.empty := by
    intro he
    simp [state.get_result, he] at h
  refine ⟨?_, ?_, ?_, ?_⟩
  · rw [get_result_congr (applyStOps_slot ops s hslot)]
    exact h
  · constructor
    · intro he
      exact absurd he hslot
    · intro hn
      rw [h] at hn
      exact Option.noConfusion hn
  · intro v hv
    have h2 := h
    rw [show s.get_result = some (Except.ok v) from by simp [state.get_result, hv]] at h2
    exact (Option.some.inj h2).symm
  · intro e he
    have h2 := h
    rw [show s.get_result = some (Except.error e) from by
      simp [state.get_result, he]] at h2
    exact (Option.some.inj h2).symm

/-- Witness for C8: on the completed state `c2done` (value 5), a sequence
containing a second write attempt, a handle clear, a registration and a
resume-all still reads the original value. -/
theorem c8_get_result_idempotent_witness :
    (applyStOps c2done
        [.setResultOp 9, .setHandleOp none, .registerOp 3, .resumeAllOp,
         .setExceptionOp "late"]).get_result = some (.ok 5) :=
  (c8_get_result_idempotent c2done
    [.setResultOp 9, .setHandleOp none, .registerOp 3, .resumeAllOp,
     .setExceptionOp "late"] (.ok 5) rfl).1

/-- C9: `resume_all_continuations` submits, for each registered continuation,
one dedicated resumer work item to that continuation's own target executor;
every emitted action is a submission — the calling thread never invokes a
handle's resume inline; the resume itself happens only when a worker later
executes the scheduled resumer. -/
theorem c9_resume_all_never_inline (m : continuation_manager) (hdl : Nat) :
    m.resume_all_continuations.2 =
      m.continuations.map (fun c => Act.sched c.execId (.resumer c.handle)) ∧
    m.resume_all_continuations.2.all Act.isSched = true ∧
    m.resume_all_continuations.2.length = m.continuations.length ∧
    resumer.execute hdl = Act.resume hdl := by
  refine ⟨rfl, ?_, ?_, rfl⟩
  · simp [continuation_manager.resume_all_continuations, List.all_eq_true,
      resume_continuation, Act.isSched]
  · simp [continuation_manager.resume_all_continuations]

/-- C10: the coroutine promise holds only a weak pointer to the shared state;
when the state is already destroyed the lock fails and `return_value`,
`unhandled_exception` and `final_suspend` (and hence a late `execute`) are
silent no-ops: they write no result, schedule no continuation resumption, and
clear no handle. -/
theorem c10_dead_state_noop {V E : Type} (v : V) (e : E) :
    coroutine_promise.return_value (V := V) (E := E) none v = .ok (none, []) ∧
    coroutine_promise.unhandled_exception (V := V) (E := E) none e = .ok (none, []) ∧
    coroutine_promise.final_suspend (V := V) (E := E) none = none ∧
    state.execute (V := V) (E := E) none (.ok v) = .ok (none, []) ∧
    state.execute (V := V) (E := E) none (.exn e) = .ok (none, []) :=
  ⟨rfl, rfl, rfl, rfl, rfl⟩

end V4d
